import Mathlib

/-!
Verification of the game-recommendations-api relationship-graph model.

The definitions below are a shallow embedding of the TypeScript source:

* the relationship vocabulary (VALID_RELATIONSHIPS, RELATIONSHIP_DISTANCES)
  as declared in src/server.ts;
* the slug derivation gidFrom from src/gid.ts
  (lowercase the input, replace each run of non-word characters by a single
  hyphen, strip a trailing non-word run, then prepend a gid prefix with a
  hyphen separator unless the converted string already starts with one);
  JavaScript word characters for \W without the u flag are [A-Za-z0-9_],
  and toLowerCase applies Unicode case conversion per character
  (jsToLowerChar: the ASCII mappings, U+0130 to i plus combining dot above,
  U+212A to k — the only two code points outside ASCII whose lowercase
  forms contain ASCII word characters — and the identity elsewhere, which
  the downstream word test cannot distinguish from the remaining Unicode
  mappings, since those send non-word characters to non-word characters);
* the graph store state (Graph: User nodes, Game nodes, directed
  kind-labelled edges) together with the write path of
  POST /users/:userid/games/:gameid/relationship (postRelationship,
  whose store write is the Cypher
  MATCH (u:User \x7bid\x7d), (g:Game \x7bid\x7d)
  MERGE (u)-[:KIND \x7bdist\x7d]->(g),
  modelled by mergeEdge);
* the read path of GET /games/:gameId (getGame), which maps the records
  of MATCH (n:Game \x7bid\x7d)<-[r]-(u:User) and then indexes records[0],
  an exception (caught, turned into a 500 response) when no record exists;
* the draft recommendations query of GET /users/:userid/recommendations
  (recommend):
  match (a:User \x7bid\x7d)-[b]->(c:Game)<-[d]-(e:User)-[f]->(g:Game)
  where not (a)-[]->(g) and b.dist = d.dist
  with sum(b.dist + d.dist + f.dist) as dist, a, b, c, d, e, f, g
  return distinct min(dist) as mDist, g as rec, collect(c) as reason_games,
  collect(type(b)) as reason_rel, collect(type(d)) as reason_rel_other
  ORDER BY mDist.
  Rows are the bindings of the pattern (pathRows; Cypher relationship
  uniqueness makes b, d, f pairwise distinct in one match, a condition shown
  redundant in isPathRow_of_conditions); the with clause groups by the full
  binding, so the sum is the cost b.dist + d.dist + f.dist of the single
  path of the group (pathCost); the return clause groups by g, taking the
  minimum of the costs and collecting the evidence columns (recFor);
  ORDER BY mDist is realised as a stable insertion sort on the grouped rows
  (Cypher leaves the relative order of equal keys unspecified; row order
  itself is realised as nested enumeration of the edge list).
-/

namespace GameRec

/-- The closed relationship vocabulary, from VALID_RELATIONSHIPS in
src/server.ts. -/
def VALID_RELATIONSHIPS : List String :=
  ["COMPLETE_100", "BEATEN", "SET_ASIDE_ENJOYED", "SET_ASIDE", "GOT_BORED", "WOULD_NOT_LIKE"]

/-- The kind to distance table, from RELATIONSHIP_DISTANCES in src/server.ts. -/
def RELATIONSHIP_DISTANCES : List (String × Nat) :=
  [("COMPLETE_100", 1), ("BEATEN", 2), ("SET_ASIDE_ENJOYED", 3),
   ("SET_ASIDE", 5), ("GOT_BORED", 8), ("WOULD_NOT_LIKE", 13)]

/-- Membership in the vocabulary: VALID_RELATIONSHIPS.has(relationship). -/
def isValid (k : String) : Bool := VALID_RELATIONSHIPS.contains k

/-- Lookup in the distance map: RELATIONSHIP_DISTANCES.get(kind); the value
none models the JavaScript undefined returned for unknown keys. -/
def distanceOf (k : String) : Option Nat := RELATIONSHIP_DISTANCES.lookup k

/-- The distance actually written on an edge of a valid kind; total for
convenience (edges in reachable stores only carry valid kinds). -/
def dist (k : String) : Nat := (distanceOf k).getD 0

/-- JavaScript word character for the regex classes \w and \W without the
u flag: [A-Za-z0-9_]. -/
def isWordChar (c : Char) : Bool :=
  ('a' ≤ c && c ≤ 'z') || ('A' ≤ c && c ≤ 'Z') || ('0' ≤ c && c ≤ '9') || c == '_'

/-- Replacement of every maximal run of non-word characters by a single
hyphen (the global regex replace in gidFrom). The flag records whether the
previous character was inside such a run. -/
def collapseAux : Bool → List Char → List Char
  | _, [] => []
  | inRun, c :: rest =>
    if isWordChar c then c :: collapseAux false rest
    else if inRun then collapseAux true rest
    else '-' :: collapseAux true rest

def collapseNonWord (l : List Char) : List Char := collapseAux false l

/-- Removal of the maximal trailing run of non-word characters (the
end-anchored regex replace in gidFrom). -/
def stripTrailingNonWord (l : List Char) : List Char :=
  (l.reverse.dropWhile (fun c => !isWordChar c)).reverse

/-- JavaScript String.prototype.toLowerCase on one character (Unicode
Default Case Conversion, possibly one-to-many). Carried exactly: the ASCII
range (Char.toLower), U+0130 LATIN CAPITAL LETTER I WITH DOT ABOVE to
i followed by U+0307 COMBINING DOT ABOVE, and U+212A KELVIN SIGN to k.
U+0130 and U+212A are the only code points outside ASCII whose lowercase
forms contain ASCII word characters; every remaining Unicode mapping sends
non-word characters to non-word characters, so the word test applied after
lowering cannot distinguish it from the identity used here. -/
def jsToLowerChar (c : Char) : List Char :=
  if c.toNat = 0x130 then ['i', '\u0307']
  else if c.toNat = 0x212A then ['k']
  else [c.toLower]

/-- JavaScript toLowerCase on a whole string: per-character conversion,
concatenated. -/
def jsToLower (l : List Char) : List Char := l.flatMap jsToLowerChar

/-- The function gidFrom of src/gid.ts: lowercase, collapse non-word runs to
hyphens, strip the trailing non-word run, then prepend gid together with a
hyphen separator unless the converted string already starts with a hyphen. -/
def gidFrom (raw : String) : String :=
  let converted : List Char := stripTrailingNonWord (collapseNonWord (jsToLower raw.data))
  String.mk ('g' :: 'i' :: 'd' ::
    (if converted.head? = some ('-') then converted else '-' :: converted))

/-- A directed User to Game edge; it has no identity beyond its
(user, game, kind) triple, and its dist property is determined by the kind
(the MERGE write always sets dist from RELATIONSHIP_DISTANCES). -/
structure Edge where
  user : String
  game : String
  kind : String
deriving DecidableEq

/-- The graph store: User nodes, Game nodes and the directed edges. -/
structure Graph where
  users : List String
  games : List String
  edges : List Edge
deriving DecidableEq

/-- The MERGE write of the relationship endpoint: if both nodes exist,
create the edge unless an edge of that type (and its determined dist
property) already connects the pair; without both nodes the MATCH part
produces no row and nothing is written. -/
def mergeEdge (G : Graph) (u g k : String) : Graph :=
  if u ∈ G.users ∧ g ∈ G.games then
    if Edge.mk u g k ∈ G.edges then G
    else { G with edges := G.edges ++ [Edge.mk u g k] }
  else G

/-- Outcome of the POST relationship handler. -/
inductive PostResult where
  | badUserId
  | badGameId
  | invalidKind
  | ok
deriving DecidableEq

/-- HTTP status of each outcome (400 for the three rejections, 200 for
success). -/
def statusOf : PostResult → Nat
  | .ok => 200
  | _ => 400

/-- The handler of POST /users/:userid/games/:gameid/relationship: guards on
the two ids, then on VALID_RELATIONSHIPS.has(relationship), and only then
issues the MERGE write. -/
def postRelationship (G : Graph) (u g k : String) : PostResult × Graph :=
  if u = "" then (.badUserId, G)
  else if g = "" then (.badGameId, G)
  else if isValid k then (.ok, mergeEdge G u g k)
  else (.invalidKind, G)

/-- All outgoing edges of a user, as read by the Cypher match on
(u:User)-[r]->(g:Game); this is the edgesOf operation of the store
contract. -/
def edgesOf (G : Graph) (u : String) : List Edge :=
  G.edges.filter (fun e => e.user == u)

/-- Outcome of the GET /games/:gameId handler. -/
inductive GetGameResult where
  | badRequest
  | serverError
  | ok (game : String) (users : List (String × String))
deriving DecidableEq

/-- The handler of GET /games/:gameId: matches every edge into the game,
maps every record to a (user, relationship) pair, then reads the game node
from records[0] — which throws on an empty record list, an error the
handler catches and turns into a 500 response. -/
def getGame (G : Graph) (gameId : String) : GetGameResult :=
  if gameId = "" then .badRequest
  else
    let records := G.edges.filter (fun e => e.game == gameId)
    let users := records.map (fun e => (e.user, e.kind))
    match records with
    | [] => .serverError
    | _ :: _ => .ok gameId users

/-- Existence of some edge from the user to the game — the Cypher pattern
(a)-[]->(g) of the where clause. -/
def connected (G : Graph) (u g : String) : Bool :=
  G.edges.any (fun e => e.user == u && e.game == g)

/-- One binding of the draft query pattern
(a:User)-[b]->(c:Game)<-[d]-(e:User)-[f]->(g:Game) with the where clause
(not (a)-[]->(g) and b.dist = d.dist); Cypher relationship uniqueness keeps
b, d, f pairwise distinct within one match. -/
def isPathRow (G : Graph) (uid : String) (b d f : Edge) : Bool :=
  b.user == uid && d.game == b.game && f.user == d.user &&
  !(b == d) && !(d == f) && !(b == f) &&
  !(connected G uid f.game) && dist b.kind == dist d.kind

abbrev Path := Edge × Edge × Edge

/-- All rows (b, d, f) of the match, enumerated in edge-list order. -/
def pathRows (G : Graph) (uid : String) : List Path :=
  G.edges.flatMap fun b =>
    G.edges.flatMap fun d =>
      (G.edges.filter (fun f => isPathRow G uid b d f)).map fun f => (b, d, f)

/-- The sum of the three distances along one path — the with clause groups
by the full binding, so its sum aggregates a single row. -/
def pathCost (r : Path) : Nat := dist r.1.kind + dist r.2.1.kind + dist r.2.2.kind

/-- Minimum of a group of costs (the min aggregate of the return clause). -/
def listMin : List Nat → Option Nat
  | [] => none
  | c :: cs => some (cs.foldl Nat.min c)

/-- One result row of the recommendations query. The field target holds the
rec column, the recommended game g (the identifier rec is reserved by
Lean); the three evidence lists are collect(c), collect(type(b)) and
collect(type(d)). -/
structure Candidate where
  target : String
  mDist : Nat
  reason_games : List String
  reason_rel : List String
  reason_rel_other : List String
deriving DecidableEq

/-- The distinct grouping keys g, in first-appearance order. -/
def dedupFirst : List String → List String
  | [] => []
  | x :: xs => x :: (dedupFirst xs).filter (fun y => y != x)

/-- The costs of all qualifying rows whose target game is gp. -/
def qualCosts (G : Graph) (uid gp : String) : List Nat :=
  ((pathRows G uid).filter (fun r => r.2.2.game == gp)).map pathCost

/-- The aggregated result row for one target game gp: minimum cost over the
rows of the group and the three collected evidence columns. -/
def recFor (G : Graph) (uid gp : String) : Candidate :=
  let grp := (pathRows G uid).filter (fun r => r.2.2.game == gp)
  { target := gp
    mDist := (listMin (grp.map pathCost)).getD 0
    reason_games := grp.map (fun r => r.1.game)
    reason_rel := grp.map (fun r => r.1.kind)
    reason_rel_other := grp.map (fun r => r.2.1.kind) }

/-- Stable insertion step for ORDER BY mDist. -/
def insertByDist (r : Candidate) : List Candidate → List Candidate
  | [] => [r]
  | x :: xs => if r.mDist ≤ x.mDist then r :: x :: xs else x :: insertByDist r xs

/-- Stable sort by ascending mDist (the only ORDER BY key of the query). -/
def sortByDist : List Candidate → List Candidate
  | [] => []
  | x :: xs => insertByDist x (sortByDist xs)

/-- The full draft query recommend(userId): aggregate the rows by target
game and order by ascending mDist. -/
def recommend (G : Graph) (uid : String) : List Candidate :=
  sortByDist ((dedupFirst ((pathRows G uid).map (fun r => r.2.2.game))).map (recFor G uid))

/-- The two-user graph of the worked example in the specification: user A
rated G1 with COMPLETE_100, user B rated G1 with COMPLETE_100 and G2 with
BEATEN, and A has no edge to G2. -/
def demoGraph : Graph :=
  { users := ["A", "B"]
    games := ["G1", "G2"]
    edges := [Edge.mk ("A") ("G1") ("COMPLETE_100"),
              Edge.mk ("B") ("G1") ("COMPLETE_100"),
              Edge.mk ("B") ("G2") ("BEATEN")] }

/-- The worked example extended with a second, costlier qualifying path to
G2: users A and C both rated G3 with SET_ASIDE (5) and C rated G2 with
BEATEN (2), giving the path cost 5+5+2 = 12 next to the minimal
1+1+2 = 4. -/
def demoGraph2 : Graph :=
  { users := ["A", "B", "C"]
    games := ["G1", "G2", "G3"]
    edges := [Edge.mk ("A") ("G1") ("COMPLETE_100"),
              Edge.mk ("B") ("G1") ("COMPLETE_100"),
              Edge.mk ("B") ("G2") ("BEATEN"),
              Edge.mk ("A") ("G3") ("SET_ASIDE"),
              Edge.mk ("C") ("G3") ("SET_ASIDE"),
              Edge.mk ("C") ("G2") ("BEATEN")] }

/-- A graph with two equal-score candidates whose identifiers are ordered
against their appearance order: the edge of B into Gz precedes the edge of
B into Ga. -/
def tieGraph : Graph :=
  { users := ["A", "B"]
    games := ["G1", "Gz", "Ga"]
    edges := [Edge.mk ("A") ("G1") ("COMPLETE_100"),
              Edge.mk ("B") ("G1") ("COMPLETE_100"),
              Edge.mk ("B") ("Gz") ("BEATEN"),
              Edge.mk ("B") ("Ga") ("BEATEN")] }

end GameRec

namespace GameRec

/-- Membership is preserved by the insertion step of the sort. -/
theorem mem_insertByDist (a r : Candidate) (l : List Candidate) :
    a ∈ insertByDist r l ↔ a = r ∨ a ∈ l := by
  induction l with
  | nil => simp [insertByDist]
  | cons x xs ih =>
    unfold insertByDist
    split
    · simp [List.mem_cons]
    · simp only [List.mem_cons, ih]
      tauto

/-- Sorting by mDist neither adds nor removes result rows. -/
theorem mem_sortByDist (a : Candidate) (l : List Candidate) :
    a ∈ sortByDist l ↔ a ∈ l := by
  induction l with
  | nil => simp [sortByDist]
  | cons x xs ih =>
    unfold sortByDist
    rw [mem_insertByDist, ih, List.mem_cons]

/-- Deduplication keeps exactly the members of the original list. -/
theorem mem_dedupFirst (a : String) (l : List String) :
    a ∈ dedupFirst l ↔ a ∈ l := by
  induction l with
  | nil => simp [dedupFirst]
  | cons x xs ih =>
    unfold dedupFirst
    simp only [List.mem_cons, List.mem_filter, ih, bne_iff_ne, ne_eq]
    constructor
    · rintro (rfl | ⟨hmem, _⟩)
      · exact Or.inl rfl
      · exact Or.inr hmem
    · rintro (rfl | hmem)
      · exact Or.inl rfl
      · by_cases hax : a = x
        · exact Or.inl hax
        · exact Or.inr ⟨hmem, hax⟩

/-- The left fold of Nat.min computes an element of the list that is a lower
bound of the list. -/
theorem foldl_min_spec (cs : List Nat) (c : Nat) :
    (cs.foldl Nat.min c ∈ c :: cs) ∧ ∀ x ∈ c :: cs, cs.foldl Nat.min c ≤ x := by
  induction cs generalizing c with
  | nil => simp
  | cons c1 cs ih =>
    obtain ⟨hmem, hle⟩ := ih (Nat.min c c1)
    have hfold : (c1 :: cs).foldl Nat.min c = cs.foldl Nat.min (Nat.min c c1) := rfl
    have hmin : Nat.min c c1 = c ∨ Nat.min c c1 = c1 := by
      by_cases h : c ≤ c1
      · exact Or.inl (Nat.min_eq_left h)
      · exact Or.inr (Nat.min_eq_right (Nat.le_of_not_le h))
    constructor
    · rw [hfold]
      rcases List.mem_cons.mp hmem with h | h
      · rcases hmin with h2 | h2 <;> rw [h, h2] <;> simp
      · simp [List.mem_cons, h]
    · intro x hx
      rw [hfold]
      rcases List.mem_cons.mp hx with rfl | hx2
      · exact Nat.le_trans (hle _ (List.mem_cons_self _ _)) (Nat.min_le_left _ _)
      · rcases List.mem_cons.mp hx2 with rfl | hx3
        · exact Nat.le_trans (hle _ (List.mem_cons_self _ _)) (Nat.min_le_right _ _)
        · exact hle x (List.mem_cons_of_mem _ hx3)

/-- Inserting into a list sorted by mDist keeps it sorted. -/
theorem pairwise_insertByDist (r : Candidate) (l : List Candidate)
    (h : l.Pairwise (fun a b => a.mDist ≤ b.mDist)) :
    (insertByDist r l).Pairwise (fun a b => a.mDist ≤ b.mDist) := by
  induction l with
  | nil => simp [insertByDist]
  | cons x xs ih =>
    unfold insertByDist
    rcases List.pairwise_cons.mp h with ⟨hx, hxs⟩
    split
    · rename_i hle
      refine List.pairwise_cons.mpr ⟨?_, h⟩
      intro b hb
      rcases List.mem_cons.mp hb with rfl | hb2
      · exact hle
      · exact Nat.le_trans hle (hx b hb2)
    · rename_i hgt
      refine List.pairwise_cons.mpr ⟨?_, ih hxs⟩
      intro b hb
      rcases (mem_insertByDist b r xs).mp hb with rfl | hb2
      · exact Nat.le_of_not_le hgt
      · exact hx b hb2

/-- The insertion sort outputs a list sorted by ascending mDist. -/
theorem pairwise_sortByDist (l : List Candidate) :
    (sortByDist l).Pairwise (fun a b => a.mDist ≤ b.mDist) := by
  induction l with
  | nil => simp [sortByDist]
  | cons x xs ih => exact pairwise_insertByDist x _ ih

/-- The pairwise-distinctness conjuncts of isPathRow (the relationship
uniqueness Cypher imposes on one match) are implied by the structural and
where-clause conditions, so the row set coincides with the plain
description of qualifying 2-hop paths. -/
theorem isPathRow_of_conditions (G : Graph) (uid : String) (b d f : Edge)
    (hb : b ∈ G.edges) (hf : f ∈ G.edges)
    (h1 : b.user = uid) (h2 : d.game = b.game) (h3 : f.user = d.user)
    (h4 : connected G uid f.game = false) (h5 : dist b.kind = dist d.kind) :
    isPathRow G uid b d f = true := by
  have hcon : ∀ e ∈ G.edges, e.user = uid → e.game = f.game → False := by
    intro e he hu hg
    have hc : connected G uid f.game = true := by
      unfold connected
      rw [List.any_eq_true]
      exact ⟨e, he, by simp [hu, hg]⟩
    rw [h4] at hc
    exact Bool.false_ne_true hc
  have hbd : b ≠ d := by
    rintro rfl
    exact hcon f hf (h3.trans h1) rfl
  have hdf : d ≠ f := by
    rintro rfl
    exact hcon b hb h1 (h2.symm)
  have hbf : b ≠ f := by
    rintro rfl
    exact hcon b hb h1 rfl
  unfold isPathRow
  simp [h1, h2, h3, h5, h4, hbd, hdf, hbf]

end GameRec

namespace GameRec

/-- Comparison of characters is comparison of their code points. -/
theorem char_le_iff (a b : Char) : a ≤ b ↔ a.toNat ≤ b.toNat := by
  rw [Char.le_def, UInt32.le_def, BitVec.le_def]
  exact Iff.rfl

/-- Equality of characters is equality of their code points. -/
theorem char_eq_iff (a b : Char) : a = b ↔ a.toNat = b.toNat := by
  constructor
  · intro h; rw [h]
  · intro h
    apply Char.ext
    apply UInt32.eq_of_toBitVec_eq
    exact BitVec.eq_of_toNat_eq h

/-- Code point of Char.toLower: ASCII uppercase letters are shifted by 32,
every other character is untouched. -/
theorem toLower_toNat (c : Char) :
    c.toLower.toNat = if 65 ≤ c.toNat ∧ c.toNat ≤ 90 then c.toNat + 32 else c.toNat := by
  unfold Char.toLower
  split
  · rename_i h
    have hv : Nat.isValidChar (c.toNat + 32) := by
      left; omega
    simp only [ge_iff_le, h, and_self, if_pos, Char.ofNat, dif_pos hv]
    simp [Char.ofNatAux, Char.toNat, UInt32.toNat]
  · rename_i h
    simp only [ge_iff_le]
    rw [if_neg h]

/-- Lowercasing never produces an ASCII uppercase letter. -/
theorem toLower_not_upper (c : Char) :
    ¬(65 ≤ c.toLower.toNat ∧ c.toLower.toNat ≤ 90) := by
  rw [toLower_toNat]
  split <;> omega

/-- Lowercasing fixes every character that is not an ASCII uppercase
letter. -/
theorem toLower_eq_self (c : Char) (h : ¬(65 ≤ c.toNat ∧ c.toNat ≤ 90)) :
    c.toLower = c := by
  unfold Char.toLower
  simp only [ge_iff_le]
  rw [if_neg h]

/-- Per-character lowering never outputs an ASCII uppercase letter: the two
special mappings output i, U+0307 and k, and the ASCII branch is covered by
toLower_not_upper. -/
theorem jsToLowerChar_not_upper (c0 c : Char) (h : c ∈ jsToLowerChar c0) :
    ¬(65 ≤ c.toNat ∧ c.toNat ≤ 90) := by
  by_cases h1 : c0.toNat = 0x130
  · rw [jsToLowerChar, if_pos h1] at h
    rcases List.mem_cons.mp h with rfl | h2
    · decide
    · rcases List.mem_cons.mp h2 with rfl | h3
      · decide
      · simp at h3
  · by_cases h2 : c0.toNat = 0x212A
    · rw [jsToLowerChar, if_neg h1, if_pos h2] at h
      simp at h
      subst h
      decide
    · rw [jsToLowerChar, if_neg h1, if_neg h2] at h
      simp at h
      subst h
      exact toLower_not_upper c0

/-- Characterisation of isWordChar on code points. -/
theorem isWordChar_iff (c : Char) : isWordChar c = true ↔
    ((97 ≤ c.toNat ∧ c.toNat ≤ 122) ∨ (65 ≤ c.toNat ∧ c.toNat ≤ 90) ∨
     (48 ≤ c.toNat ∧ c.toNat ≤ 57) ∨ c.toNat = 95) := by
  unfold isWordChar
  simp only [Bool.or_eq_true, Bool.and_eq_true, decide_eq_true_eq, beq_iff_eq]
  rw [char_le_iff, char_le_iff, char_le_iff, char_le_iff, char_le_iff, char_le_iff,
    char_eq_iff]
  have h1 : ('a').toNat = 97 := rfl
  have h2 : ('z').toNat = 122 := rfl
  have h3 : ('A').toNat = 65 := rfl
  have h4 : ('Z').toNat = 90 := rfl
  have h5 : ('0').toNat = 48 := rfl
  have h6 : ('9').toNat = 57 := rfl
  have h7 : ('_').toNat = 95 := rfl
  rw [h1, h2, h3, h4, h5, h6, h7]
  tauto

/-- Every character produced by the collapsing pass is either the hyphen
separator or a word character of the input. -/
theorem mem_collapseAux (c : Char) (b : Bool) (l : List Char) (h : c ∈ collapseAux b l) :
    c = '-' ∨ (c ∈ l ∧ isWordChar c = true) := by
  induction l generalizing b with
  | nil => simp [collapseAux] at h
  | cons x xs ih =>
    unfold collapseAux at h
    by_cases hw : isWordChar x
    · rw [if_pos hw] at h
      rcases List.mem_cons.mp h with rfl | h2
      · exact Or.inr ⟨List.mem_cons_self _ _, hw⟩
      · rcases ih false h2 with h3 | ⟨h3, h4⟩
        · exact Or.inl h3
        · exact Or.inr ⟨List.mem_cons_of_mem _ h3, h4⟩
    · rw [if_neg hw] at h
      by_cases hb : b
      · rw [if_pos hb] at h
        rcases ih true h with h3 | ⟨h3, h4⟩
        · exact Or.inl h3
        · exact Or.inr ⟨List.mem_cons_of_mem _ h3, h4⟩
      · rw [if_neg hb] at h
        rcases List.mem_cons.mp h with rfl | h2
        · exact Or.inl rfl
        · rcases ih true h2 with h3 | ⟨h3, h4⟩
          · exact Or.inl h3
          · exact Or.inr ⟨List.mem_cons_of_mem _ h3, h4⟩

/-- Stripping the trailing run keeps a sublist of the input. -/
theorem mem_stripTrailing (c : Char) (l : List Char) (h : c ∈ stripTrailingNonWord l) :
    c ∈ l := by
  unfold stripTrailingNonWord at h
  rw [List.mem_reverse] at h
  have hs := List.dropWhile_sublist (l := l.reverse) (fun c => !isWordChar c)
  exact List.mem_reverse.mp (hs.mem h)

/-- Every character of the converted slug body is a lowercase letter, a
digit, an underscore or a hyphen. -/
theorem gid_allowed (raw : String) (c : Char)
    (h : c ∈ stripTrailingNonWord (collapseNonWord (jsToLower raw.data))) :
    ('a' ≤ c ∧ c ≤ 'z') ∨ ('0' ≤ c ∧ c ≤ '9') ∨ c = '_' ∨ c = '-' := by
  have h1 := mem_stripTrailing c _ h
  rcases mem_collapseAux c false _ h1 with rfl | ⟨h2, h3⟩
  · exact Or.inr (Or.inr (Or.inr rfl))
  · obtain ⟨c0, _, hmem⟩ := List.mem_flatMap.mp h2
    have h4 := (isWordChar_iff _).mp h3
    have h5 := jsToLowerChar_not_upper c0 c hmem
    rw [char_le_iff, char_le_iff, char_le_iff, char_le_iff, char_eq_iff, char_eq_iff]
    have e1 : ('a').toNat = 97 := rfl
    have e2 : ('z').toNat = 122 := rfl
    have e3 : ('0').toNat = 48 := rfl
    have e4 : ('9').toNat = 57 := rfl
    have e5 : ('_').toNat = 95 := rfl
    have e6 : ('-').toNat = 45 := rfl
    rw [e1, e2, e3, e4, e5, e6]
    omega

/-- Collapsing a list of non-word characters while inside a run yields
nothing. -/
theorem collapseAux_true_nil (l : List Char) (h : ∀ c ∈ l, isWordChar c = false) :
    collapseAux true l = [] := by
  induction l with
  | nil => rfl
  | cons x xs ih =>
    unfold collapseAux
    rw [if_neg (by simp [h x (List.mem_cons_self x xs)]), if_pos rfl]
    exact ih (fun c hc => h c (List.mem_cons_of_mem _ hc))

/-- Inputs whose lowercased form consists of non-word characters only are
mapped to the bare gid prefix. -/
theorem gid_lowered_nonword (raw : String)
    (hlow : ∀ c ∈ jsToLower raw.data, isWordChar c = false) :
    gidFrom raw = "gid-" := by
  have hcoll : collapseNonWord (jsToLower raw.data) = [] ∨
      collapseNonWord (jsToLower raw.data) = ['-'] := by
    unfold collapseNonWord
    rcases hl : jsToLower raw.data with _ | ⟨x, xs⟩
    · exact Or.inl rfl
    · rw [hl] at hlow
      unfold collapseAux
      rw [if_neg (by simp [hlow x (List.mem_cons_self x xs)]),
        if_neg (by simp), collapseAux_true_nil xs
          (fun c hc => hlow c (List.mem_cons_of_mem _ hc))]
      exact Or.inr rfl
  unfold gidFrom
  rcases hcoll with hc | hc <;> rw [hc] <;> rfl

/-- Inputs made only of non-word characters none of which is one of the two
exceptional code points U+0130 and U+212A are mapped to the bare gid
prefix: such characters are fixed by lowering and then collapse away. -/
theorem gid_nonword (raw : String)
    (h : ∀ c ∈ raw.data, isWordChar c = false ∧ c.toNat ≠ 0x130 ∧ c.toNat ≠ 0x212A) :
    gidFrom raw = "gid-" := by
  apply gid_lowered_nonword
  intro c hc
  obtain ⟨c0, hc0, hmem⟩ := List.mem_flatMap.mp hc
  obtain ⟨hw, h130, h212A⟩ := h c0 hc0
  rw [jsToLowerChar, if_neg h130, if_neg h212A] at hmem
  simp at hmem
  subst hmem
  have hup : ¬(65 ≤ c0.toNat ∧ c0.toNat ≤ 90) := by
    intro hcon
    have hwt : isWordChar c0 = true := (isWordChar_iff c0).mpr (Or.inr (Or.inl hcon))
    rw [hw] at hwt
    exact Bool.false_ne_true hwt
  rw [toLower_eq_self c0 hup]
  exact hw

/-- Lowercasing maps a character to the underscore exactly when it is the
underscore. -/
theorem toLower_underscore_iff (x : Char) : (Char.toLower x = '_') ↔ (x = '_') := by
  rw [char_eq_iff, char_eq_iff, toLower_toNat]
  have h95 : ('_').toNat = 95 := rfl
  rw [h95]
  split <;> omega

/-- Per-character lowering preserves the number of underscores: the two
special mappings contain none, and the ASCII branch is covered by
toLower_underscore_iff. -/
theorem count_jsToLowerChar (c : Char) :
    (jsToLowerChar c).count '_' = ([c] : List Char).count '_' := by
  have hcnt : ∀ a : Char, ([a] : List Char).count '_' = if a == '_' then 1 else 0 := by
    intro a
    simp [List.count_cons]
  by_cases h1 : c.toNat = 0x130
  · have hc : (c == '_') = false := by
      apply beq_eq_false_iff_ne.mpr
      intro hcon
      rw [hcon] at h1
      exact absurd h1 (by decide)
    rw [jsToLowerChar, if_pos h1, hcnt, hc]
    decide
  · by_cases h2 : c.toNat = 0x212A
    · have hc : (c == '_') = false := by
        apply beq_eq_false_iff_ne.mpr
        intro hcon
        rw [hcon] at h2
        exact absurd h2 (by decide)
      rw [jsToLowerChar, if_neg h1, if_pos h2, hcnt, hcnt, hc]
      decide
    · rw [jsToLowerChar, if_neg h1, if_neg h2, hcnt, hcnt]
      by_cases hc : c = '_'
      · rw [hc]
        decide
      · rw [beq_eq_false_iff_ne.mpr hc,
          beq_eq_false_iff_ne.mpr (fun hcon => hc ((toLower_underscore_iff c).mp hcon))]

/-- Lowercasing preserves the number of underscores. -/
theorem count_jsToLower (l : List Char) :
    (jsToLower l).count '_' = l.count '_' := by
  induction l with
  | nil => rfl
  | cons x xs ih =>
    have hstep : jsToLower (x :: xs) = jsToLowerChar x ++ jsToLower xs := rfl
    rw [hstep, List.count_append, ih, count_jsToLowerChar]
    simp [List.count_cons]
    omega

/-- The collapsing pass preserves the number of underscores. -/
theorem count_collapseAux (b : Bool) (l : List Char) :
    (collapseAux b l).count '_' = l.count '_' := by
  induction l generalizing b with
  | nil => rfl
  | cons x xs ih =>
    unfold collapseAux
    by_cases hw : isWordChar x
    · rw [if_pos hw]
      simp only [List.count_cons, ih]
    · have hx : x ≠ '_' := by
        intro hcon
        rw [hcon] at hw
        exact hw (by decide)
      have hxc : (x == '_') = false := beq_eq_false_iff_ne.mpr hx
      rw [if_neg hw]
      by_cases hb : b
      · rw [if_pos hb]
        simp [List.count_cons, hxc, ih true]
      · rw [if_neg hb]
        simp [List.count_cons, hxc, ih true]

/-- Dropping leading non-word characters preserves the number of
underscores. -/
theorem count_dropWhile_nonword (l : List Char) :
    (l.dropWhile (fun c => !isWordChar c)).count '_' = l.count '_' := by
  induction l with
  | nil => rfl
  | cons x xs ih =>
    rw [List.dropWhile_cons]
    by_cases hw : isWordChar x
    · simp [hw]
    · have hx : x ≠ '_' := by
        intro hcon
        rw [hcon] at hw
        exact hw (by decide)
      have hxc : (x == '_') = false := beq_eq_false_iff_ne.mpr hx
      simp only [hw, Bool.not_false, if_pos, ih, List.count_cons, hxc]
      simp

/-- Stripping the trailing run preserves the number of underscores. -/
theorem count_stripTrailing (l : List Char) :
    (stripTrailingNonWord l).count '_' = l.count '_' := by
  unfold stripTrailingNonWord
  rw [List.count_reverse, count_dropWhile_nonword, List.count_reverse]

/-- The slug keeps exactly the underscores of its input. -/
theorem gid_count_underscore (raw : String) :
    (gidFrom raw).data.count '_' = raw.data.count '_' := by
  unfold gidFrom
  dsimp only
  have key : (stripTrailingNonWord (collapseNonWord (jsToLower raw.data))).count '_' =
      raw.data.count '_' := by
    rw [count_stripTrailing]
    unfold collapseNonWord
    rw [count_collapseAux, count_jsToLower]
  split
  · simp only [String.mk, List.count_cons]
    rw [key]
    rfl
  · simp only [String.mk, List.count_cons]
    rw [key]
    rfl

/-- Every slug consists of the four characters of the gid prefix followed by
allowed body characters only. -/
theorem gid_shape (raw : String) : ∃ rest : List Char,
    (gidFrom raw).data = 'g' :: 'i' :: 'd' :: '-' :: rest ∧
    ∀ c ∈ rest, ('a' ≤ c ∧ c ≤ 'z') ∨ ('0' ≤ c ∧ c ≤ '9') ∨ c = '_' ∨ c = '-' := by
  unfold gidFrom
  dsimp only
  by_cases h : (stripTrailingNonWord (collapseNonWord (jsToLower raw.data))).head? =
      some ('-')
  · rcases hc : stripTrailingNonWord (collapseNonWord (jsToLower raw.data)) with
      _ | ⟨c0, t⟩
    · rw [hc] at h
      simp at h
    · rw [hc] at h
      simp only [List.head?_cons, Option.some.injEq] at h
      subst h
      refine ⟨t, by simp, ?_⟩
      intro c hcmem
      exact gid_allowed raw c (by rw [hc]; exact List.mem_cons_of_mem _ hcmem)
  · rw [if_neg h]
    refine ⟨stripTrailingNonWord (collapseNonWord (jsToLower raw.data)), by simp, ?_⟩
    intro c hcmem
    exact gid_allowed raw c hcmem

end GameRec

namespace GameRec

/-- Claim C1 (counterexample): on the worked-example graph, recommend for
user A returns the single candidate G2 with aggregate score 4, but its
evidence consists of the triple (G1, COMPLETE_100, COMPLETE_100) only — the
kind BEATEN of the edge from the neighbour B to the target G2 appears
nowhere in the evidence, so the claimed quadruple
(G1, COMPLETE_100, COMPLETE_100, BEATEN) is not what the query collects. -/
theorem C1_counterexample :
    recommend demoGraph ("A") =
      [{ target := "G2", mDist := 4, reason_games := ["G1"],
         reason_rel := ["COMPLETE_100"], reason_rel_other := ["COMPLETE_100"] }] ∧
    ∀ r ∈ recommend demoGraph ("A"),
      "BEATEN" ∉ r.reason_rel ∧ "BEATEN" ∉ r.reason_rel_other := by
  refine ⟨by decide, by decide⟩

/-- Claim C1 (amended): on the worked-example graph, recommend for user A
returns exactly one candidate, G2, with aggregate score 1+1+2 = 4, and its
evidence lists the single triple (G1, COMPLETE_100, COMPLETE_100) — shared
game and the two equal-distance kinds; the query does not collect the kind
of the neighbour edge to the target game. -/
theorem C1_recommend_demo :
    recommend demoGraph ("A") =
      [{ target := "G2", mDist := 4, reason_games := ["G1"],
         reason_rel := ["COMPLETE_100"], reason_rel_other := ["COMPLETE_100"] }] := by
  decide

/-- Claim C2: for every graph, user and target game reachable by at least
one qualifying 2-hop path, the recommendations contain a row for that
target whose aggregate score is the minimum of the costs d1+d2+d3 over all
qualifying paths reaching it — an element of the cost list that lower-bounds
the whole cost list. -/
theorem C2_min_over_paths (G : Graph) (uid gp : String)
    (h : ∃ row ∈ pathRows G uid, row.2.2.game = gp) :
    ∃ r ∈ recommend G uid, r.target = gp ∧
      r.mDist ∈ qualCosts G uid gp ∧ ∀ c ∈ qualCosts G uid gp, r.mDist ≤ c := by
  obtain ⟨row, hrow, hgame⟩ := h
  refine ⟨recFor G uid gp, ?_, rfl, ?_⟩
  · rw [recommend, mem_sortByDist]
    apply List.mem_map_of_mem
    rw [mem_dedupFirst]
    exact List.mem_map.mpr ⟨row, hrow, hgame⟩
  · have hgrp : row ∈ (pathRows G uid).filter (fun r => r.2.2.game == gp) :=
      List.mem_filter.mpr ⟨hrow, by simp [hgame]⟩
    rcases hg : (pathRows G uid).filter (fun r => r.2.2.game == gp) with _ | ⟨p, ps⟩
    · rw [hg] at hgrp; simp at hgrp
    · have hq : qualCosts G uid gp = pathCost p :: ps.map pathCost := by
        rw [qualCosts, hg, List.map_cons]
      have hm : (recFor G uid gp).mDist = (ps.map pathCost).foldl Nat.min (pathCost p) := by
        simp only [recFor, hg, List.map_cons, listMin, Option.getD_some]
      obtain ⟨hmem, hle⟩ := foldl_min_spec (ps.map pathCost) (pathCost p)
      rw [hq, hm]
      exact ⟨hmem, hle⟩

/-- Witness for claim C2: on the extended worked-example graph the target G2
is reachable, and the theorem yields its row with the minimal cost. -/
theorem C2_min_over_paths_witness :
    ∃ r ∈ recommend demoGraph2 ("A"), r.target = "G2" ∧
      r.mDist ∈ qualCosts demoGraph2 ("A") ("G2") ∧
      ∀ c ∈ qualCosts demoGraph2 ("A") ("G2"), r.mDist ≤ c :=
  C2_min_over_paths demoGraph2 ("A") ("G2") (by decide)

/-- Claim C3 (counterexample): on tieGraph the two candidates Gz and Ga both
have aggregate score 4, yet Gz — the lexically larger identifier — appears
first, because the query orders by mDist only and has no identifier
tie-break. -/
theorem C3_counterexample :
    (recommend tieGraph ("A")).map (fun r => (r.target, r.mDist)) = [("Gz", 4), ("Ga", 4)] ∧
    ("Ga").data < ("Gz").data := by
  refine ⟨by decide, by decide⟩

/-- Claim C3 (amended): the sequence returned by recommend is sorted by
ascending aggregate score; candidates of equal score keep the encounter
order of the underlying rows, since mDist is the only ordering key. -/
theorem C3_sorted_by_score (G : Graph) (uid : String) :
    (recommend G uid).Pairwise (fun a b => a.mDist ≤ b.mDist) :=
  pairwise_sortByDist _

/-- Claim C4: a string is a valid kind exactly when it is one of the six
vocabulary entries (case-sensitively), and the distance table maps the six
entries to 1, 2, 3, 5, 8, 13 respectively. -/
theorem C4_vocabulary :
    (∀ k : String, isValid k = true ↔
      (k = "COMPLETE_100" ∨ k = "BEATEN" ∨ k = "SET_ASIDE_ENJOYED" ∨
       k = "SET_ASIDE" ∨ k = "GOT_BORED" ∨ k = "WOULD_NOT_LIKE")) ∧
    distanceOf ("COMPLETE_100") = some 1 ∧ distanceOf ("BEATEN") = some 2 ∧
    distanceOf ("SET_ASIDE_ENJOYED") = some 3 ∧ distanceOf ("SET_ASIDE") = some 5 ∧
    distanceOf ("GOT_BORED") = some 8 ∧ distanceOf ("WOULD_NOT_LIKE") = some 13 := by
  refine ⟨fun k => ?_, by decide, by decide, by decide, by decide, by decide, by decide⟩
  simp [isValid, VALID_RELATIONSHIPS, List.contains_iff_exists_mem_beq]

/-- Witness for claim C4: the vocabulary test accepts BEATEN and rejects its
lowercase variant. -/
theorem C4_vocabulary_witness :
    isValid ("BEATEN") = true ∧ isValid ("beaten") = false := by
  constructor
  · exact (C4_vocabulary.1 ("BEATEN")).mpr (by decide)
  · by_contra h
    simp only [Bool.not_eq_false] at h
    have hmem := (C4_vocabulary.1 ("beaten")).mp h
    simp at hmem

/-- Claim C5: for a valid kind, upserting the same (user, game, kind) triple
twice leaves the store in the same state as upserting it once — the second
MERGE matches the existing edge and writes nothing. -/
theorem C5_upsert_idempotent (G : Graph) (u g k : String) (hk : isValid k = true) :
    (postRelationship (postRelationship G u g k).2 u g k).2 = (postRelationship G u g k).2 := by
  unfold postRelationship
  by_cases hu : u = "" <;> simp [hu]
  by_cases hg : g = "" <;> simp [hg]
  simp [hk]
  unfold mergeEdge
  by_cases hn : u ∈ G.users ∧ g ∈ G.games
  · by_cases he : Edge.mk u g k ∈ G.edges
    · simp [hn, he]
    · simp [hn, he]
  · simp [hn]

/-- Witness for claim C5: upserting the BEATEN edge from A to G2 twice on
the worked-example graph equals upserting it once. -/
theorem C5_upsert_idempotent_witness :
    isValid ("BEATEN") = true ∧
    (postRelationship (postRelationship demoGraph ("A") ("G2") ("BEATEN")).2
        ("A") ("G2") ("BEATEN")).2 =
      (postRelationship demoGraph ("A") ("G2") ("BEATEN")).2 :=
  ⟨by decide, C5_upsert_idempotent demoGraph ("A") ("G2") ("BEATEN") (by decide)⟩

/-- Claim C6: upserting two distinct valid kinds between the same existing
user and game, starting from a store with no edge between the pair, leaves
two edges between the pair, both visible through edgesOf; the first edge
survives the second call, and no duplicate (user, game, kind) triple is
ever created. -/
theorem C6_two_edges (G : Graph) (u g k kp : String)
    (hu : u ≠ "") (hg : g ≠ "") (hun : u ∈ G.users) (hgn : g ∈ G.games)
    (hk : isValid k = true) (hkp : isValid kp = true) (hne : k ≠ kp)
    (hfresh : ∀ k2, Edge.mk u g k2 ∉ G.edges) (hnodup : G.edges.Nodup) :
    Edge.mk u g k ∈ edgesOf (postRelationship (postRelationship G u g k).2 u g kp).2 u ∧
    Edge.mk u g kp ∈ edgesOf (postRelationship (postRelationship G u g k).2 u g kp).2 u ∧
    ((postRelationship (postRelationship G u g k).2 u g kp).2.edges.filter
        (fun e => e.user == u && e.game == g)).length = 2 ∧
    (postRelationship (postRelationship G u g k).2 u g kp).2.edges.Nodup := by
  have h1 : (postRelationship G u g k).2 = { G with edges := G.edges ++ [Edge.mk u g k] } := by
    unfold postRelationship mergeEdge
    simp [hu, hg, hk, hun, hgn, hfresh k]
  have h2 : (postRelationship (postRelationship G u g k).2 u g kp).2 =
      { G with edges := (G.edges ++ [Edge.mk u g k]) ++ [Edge.mk u g kp] } := by
    rw [h1]
    unfold postRelationship mergeEdge
    have hmem : Edge.mk u g kp ∉ G.edges ++ [Edge.mk u g k] := by
      simp only [List.mem_append, List.mem_singleton]
      rintro (h | h)
      · exact hfresh kp h
      · exact hne (by injection h with _ _ h3; exact h3.symm)
    simp [hu, hg, hkp, hun, hgn, hmem]
  rw [h2]
  have hfilter : G.edges.filter (fun e => e.user == u && e.game == g) = [] := by
    rw [List.filter_eq_nil_iff]
    intro e he hcond
    simp only [Bool.and_eq_true, beq_iff_eq] at hcond
    exact hfresh e.kind (by
      have hrepr : e = Edge.mk u g e.kind := by
        cases e; simp_all
      rw [← hrepr]; exact he)
  refine ⟨?_, ?_, ?_, ?_⟩
  · unfold edgesOf
    simp
  · unfold edgesOf
    simp
  · simp only [List.filter_append, hfilter]
    simp
  · simp only [List.append_assoc]
    rw [List.nodup_append]
    refine ⟨hnodup, ?_, ?_⟩
    · simp [hne]
    · intro e he hmem
      simp only [List.cons_append, List.nil_append, List.mem_cons, List.not_mem_nil,
        or_false] at hmem
      rcases hmem with rfl | rfl
      · exact hfresh k he
      · exact hfresh kp he

/-- Witness for claim C6: upserting BEATEN and then GOT_BORED from A to G2
on the worked-example graph yields both edges, two edges between the pair,
and no duplicate triple. -/
theorem C6_two_edges_witness :
    Edge.mk ("A") ("G2") ("BEATEN") ∈
      edgesOf (postRelationship (postRelationship demoGraph ("A") ("G2") ("BEATEN")).2
        ("A") ("G2") ("GOT_BORED")).2 ("A") ∧
    Edge.mk ("A") ("G2") ("GOT_BORED") ∈
      edgesOf (postRelationship (postRelationship demoGraph ("A") ("G2") ("BEATEN")).2
        ("A") ("G2") ("GOT_BORED")).2 ("A") ∧
    ((postRelationship (postRelationship demoGraph ("A") ("G2") ("BEATEN")).2
        ("A") ("G2") ("GOT_BORED")).2.edges.filter
        (fun e => e.user == "A" && e.game == "G2")).length = 2 ∧
    (postRelationship (postRelationship demoGraph ("A") ("G2") ("BEATEN")).2
        ("A") ("G2") ("GOT_BORED")).2.edges.Nodup :=
  C6_two_edges demoGraph ("A") ("G2") ("BEATEN") ("GOT_BORED") (by decide) (by decide)
    (by decide) (by decide) (by decide) (by decide) (by decide)
    (by intro k2; simp [demoGraph]) (by decide)

/-- Claim C7: a kind outside the vocabulary is rejected by the handler with
the invalid-kind outcome (HTTP 400) and the store state is returned
untouched — the guard runs before any MERGE is issued. -/
theorem C7_invalid_kind_rejected (G : Graph) (u g k : String)
    (hu : u ≠ "") (hg : g ≠ "") (hk : isValid k = false) :
    postRelationship G u g k = (.invalidKind, G) ∧ statusOf PostResult.invalidKind = 400 := by
  unfold postRelationship
  simp [hu, hg, hk, statusOf]

/-- Witness for claim C7: the lowercase string beaten is rejected on the
worked-example graph with the store unchanged. -/
theorem C7_invalid_kind_rejected_witness :
    postRelationship demoGraph ("A") ("G2") ("beaten") = (.invalidKind, demoGraph) ∧
      statusOf PostResult.invalidKind = 400 :=
  C7_invalid_kind_rejected demoGraph ("A") ("G2") ("beaten") (by decide) (by decide) (by decide)

/-- Claim C8: the slug derivation maps the three reference inputs to
gid-mass-effect-3, gid-mass-effect-3-from-ashes and
gid-mass-effect-3-from-ashes-dlc — internal non-word runs collapse to one
separator and leading and trailing non-word runs leave no extra trace. -/
theorem C8_gid_examples :
    gidFrom ("Mass Effect 3") = "gid-mass-effect-3" ∧
    gidFrom ("Mass Effect 3: From Ashes") = "gid-mass-effect-3-from-ashes" ∧
    gidFrom ("&Mass Effect 3: From Ashes (DLC)") = "gid-mass-effect-3-from-ashes-dlc" := by
  refine ⟨by decide, by decide, by decide⟩

/-- Claim C9 (counterexample): the input consisting of the single character
U+212A KELVIN SIGN is made entirely of non-word characters, yet gidFrom
maps it to gid-k, not to the bare prefix: JavaScript toLowerCase turns
U+212A into the ASCII word character k before the word test runs. -/
theorem C9_counterexample :
    (∀ c ∈ ("\u212A").data, isWordChar c = false) ∧
    gidFrom ("\u212A") = "gid-k" ∧ gidFrom ("\u212A") ≠ "gid-" := by
  refine ⟨by decide, by decide, by decide⟩

/-- Claim C9 (amended): gidFrom is total and its output is always the four
characters of the gid prefix followed by lowercase letters, digits,
underscores and hyphens only; the empty input yields exactly the bare
prefix, as does any input made entirely of non-word characters other than
the two exceptional code points U+0130 and U+212A (whose lowercase forms
contain ASCII word characters that survive the word test); underscores of
the input are preserved rather than collapsed. -/
theorem C9_gid_total_shape :
    (∀ raw : String, ∃ rest : List Char,
      (gidFrom raw).data = 'g' :: 'i' :: 'd' :: '-' :: rest ∧
      ∀ c ∈ rest, ('a' ≤ c ∧ c ≤ 'z') ∨ ('0' ≤ c ∧ c ≤ '9') ∨ c = '_' ∨ c = '-') ∧
    gidFrom ("") = "gid-" ∧
    (∀ raw : String,
      (∀ c ∈ raw.data, isWordChar c = false ∧ c.toNat ≠ 0x130 ∧ c.toNat ≠ 0x212A) →
      gidFrom raw = "gid-") ∧
    (∀ raw : String, (gidFrom raw).data.count '_' = raw.data.count '_') :=
  ⟨gid_shape, by decide, gid_nonword, gid_count_underscore⟩

/-- Witness for claim C9: an input of ordinary non-word characters only maps
to the bare prefix, and underscores survive slugification. -/
theorem C9_gid_total_shape_witness :
    gidFrom ("&(!)") = "gid-" ∧
    (gidFrom ("a__b!")).data.count '_' = ("a__b!").data.count '_' :=
  ⟨C9_gid_total_shape.2.2.1 ("&(!)") (by decide), C9_gid_total_shape.2.2.2 ("a__b!")⟩

/-- Claim C10: whenever the match of GET /games/:gameId produces no record —
the game is absent or has no incoming user edge — the handler fails with
the 500 outcome caused by indexing records[0]; and every successful
response carries a non-empty user list, witnessing at least one edge into
the game. -/
theorem C10_get_game_empty (G : Graph) (gameId : String) (h : gameId ≠ "") :
    (G.edges.filter (fun e => e.game == gameId) = [] → getGame G gameId = .serverError) ∧
    (∀ g us, getGame G gameId = .ok g us →
      us ≠ [] ∧ ∃ e ∈ G.edges, e.game = gameId) := by
  constructor
  · intro hemp
    unfold getGame
    simp [h, hemp]
  · intro g us hok
    unfold getGame at hok
    simp only [h, if_neg, ite_false] at hok
    rcases hrec : G.edges.filter (fun e => e.game == gameId) with _ | ⟨e, rest⟩
    · rw [hrec] at hok
      simp at hok
    · rw [hrec] at hok
      simp only [GetGameResult.ok.injEq] at hok
      refine ⟨?_, e, ?_, ?_⟩
      · rw [← hok.2]
        simp
      · have hmem : e ∈ G.edges.filter (fun e => e.game == gameId) := by
          rw [hrec]; exact List.mem_cons_self _ _
        exact (List.mem_filter.mp hmem).1
      · have hmem : e ∈ G.edges.filter (fun e => e.game == gameId) := by
          rw [hrec]; exact List.mem_cons_self _ _
        have hbeq := (List.mem_filter.mp hmem).2
        simpa using hbeq

/-- Witness for claim C10: the unknown game G9 has no incoming edge in the
worked-example graph and the handler answers with the 500 outcome. -/
theorem C10_get_game_empty_witness :
    demoGraph.edges.filter (fun e => e.game == "G9") = [] ∧
      getGame demoGraph ("G9") = .serverError :=
  ⟨by decide, (C10_get_game_empty demoGraph ("G9") (by decide)).1 (by decide)⟩

end GameRec
